import Mathlib

/-!
Verification of the detection reconciliation and annotation-projection core of
the Gemini-3-Inspector repository, together with its prompt history manager.

Shallow embedding conventions:
* JavaScript numbers are modelled as exact rationals (`ℚ`); the special value
  `NaN` is modelled explicitly (`JSVal.nan`, and `Option.none` after coercion
  through `Number`), since the source relies on `NaN` failing every comparison.
* Loosely typed fields (`imageIndex`, the entries of `box_2d`) are modelled by
  the sum type `JSVal` of numbers, `NaN` and strings, mirroring the
  `typeof x === 'string'` dispatch in the source.
* The JavaScript `Map` used by `detectionsByImage` is modelled as an
  insertion-ordered association list with `Map.get` / `Map.has` / `Map.set`
  semantics (`mget` / `mhas` / `mset`), plus `mpush` for the in-place
  `map.get(idx)!.push(d)` mutation.
* CSS percentage strings such as `"37.5%"` are modelled by their numeric
  percentage value; `"NaN%"` is modelled by `none`.
-/

namespace Inspector

/-- A loosely typed JavaScript value as it can appear in an untrusted
detection record: a (finite) number, the number `NaN`, or a string. -/
inductive JSVal where
  | num (q : ℚ)
  | nan
  | str (s : String)
deriving DecidableEq

/-- The whitespace characters skipped by `parseInt` / `Number` (the common
ASCII ones; exotic Unicode whitespace is not modelled). -/
def isJsSpace (c : Char) : Bool :=
  c == ' ' || c == '\t' || c == '\n' || c == '\r'

/-- Model of JavaScript `String.prototype.trim()`: strip leading and trailing
whitespace (executable, structural recursion; Lean's own `String.trim` is
built on well-founded helpers that concrete evaluation cannot unfold). -/
def jsTrim (s : String) : String :=
  String.mk (((s.toList.dropWhile isJsSpace).reverse.dropWhile isJsSpace).reverse)

/-- Numeric value of a list of decimal digit characters. -/
def digitsVal (ds : List Char) : ℕ :=
  ds.foldl (fun a c => a * 10 + (c.toNat - 48)) 0

/-- Model of JavaScript `parseInt(s)` (decimal): skip leading whitespace, read
an optional sign and then a maximal run of leading decimal digits; `NaN`
(modelled as `none`) if no digit is found.  The legacy `0x` hexadecimal prefix
is not modelled. -/
def parseIntJS (s : String) : Option ℤ :=
  let cs := s.toList.dropWhile isJsSpace
  let sign : ℤ := match cs with
    | '-' :: _ => -1
    | _ => 1
  let cs2 : List Char := match cs with
    | '-' :: r => r
    | '+' :: r => r
    | _ => cs
  let ds := cs2.takeWhile Char.isDigit
  if ds.isEmpty then none else some (sign * (digitsVal ds : ℤ))

/-- Exponent suffix of a JavaScript numeric literal: optional sign followed by
digits, consuming the whole remaining input. -/
def parseExpJS (r : List Char) : Option ℤ :=
  let (esgn, r1) : ℤ × List Char := match r with
    | '-' :: t => (-1, t)
    | '+' :: t => (1, t)
    | _ => (1, r)
  let eds := r1.takeWhile Char.isDigit
  if eds.isEmpty then none
  else if (r1.dropWhile Char.isDigit).isEmpty then some (esgn * (digitsVal eds : ℤ))
  else none

/-- Model of JavaScript `Number(s)` on a string: trim whitespace, the empty
string converts to `0`, and otherwise the whole remainder must be a decimal
literal (optional sign, digits with optional fraction part, optional
exponent); anything else is `NaN` (modelled as `none`).  Hexadecimal and
`Infinity` literals are not modelled. -/
def parseNumberJS (s : String) : Option ℚ :=
  let cs := ((s.toList.dropWhile isJsSpace).reverse.dropWhile isJsSpace).reverse
  if cs.isEmpty then some 0
  else
    let (sgn, cs1) : ℚ × List Char := match cs with
      | '-' :: r => (-1, r)
      | '+' :: r => (1, r)
      | _ => (1, cs)
    let intDs := cs1.takeWhile Char.isDigit
    let r1 := cs1.dropWhile Char.isDigit
    let (fracDs, r2) : List Char × List Char := match r1 with
      | '.' :: r => (r.takeWhile Char.isDigit, r.dropWhile Char.isDigit)
      | _ => ([], r1)
    if intDs.isEmpty ∧ fracDs.isEmpty then none
    else
      let mantissa : ℚ := (digitsVal intDs : ℚ) + (digitsVal fracDs : ℚ) / (10 ^ fracDs.length : ℚ)
      match r2 with
      | [] => some (sgn * mantissa)
      | 'e' :: r => (parseExpJS r).map (fun e => sgn * mantissa * (10 : ℚ) ^ e)
      | 'E' :: r => (parseExpJS r).map (fun e => sgn * mantissa * (10 : ℚ) ^ e)
      | _ => none

/-- JavaScript `Number(v)` coercion on the values we model; `none` is `NaN`. -/
def toNumber : JSVal → Option ℚ
  | .num q => some q
  | .nan => none
  | .str s => parseNumberJS s

/-- The raw `box_2d` field of a detection record: a loosely typed 4-tuple
`[ymin, xmin, ymax, xmax]`. -/
structure Box2d where
  ymin : JSVal
  xmin : JSVal
  ymax : JSVal
  xmax : JSVal
deriving DecidableEq

/-- An untrusted detection record as produced by the model layer. -/
structure Detection where
  label : String
  confidence : ℚ
  description : String
  imageIndex : JSVal
  box_2d : Box2d
deriving DecidableEq

/-- The overlay geometry produced by `getBoxStyle`: the numeric values of the
`top` / `left` / `width` / `height` CSS percentages; `none` models `NaN`. -/
structure BoxStyle where
  top : Option ℚ
  left : Option ℚ
  width : Option ℚ
  height : Option ℚ
deriving DecidableEq

/-- JavaScript comparison `x <= c` on a possibly-`NaN` number: false when `NaN`. -/
def jleB (x : Option ℚ) (c : ℚ) : Bool :=
  match x with
  | some q => decide (q ≤ c)
  | none => false

/-- JavaScript subtraction on possibly-`NaN` numbers. -/
def jsub (x y : Option ℚ) : Option ℚ :=
  match x, y with
  | some a, some b => some (a - b)
  | _, _ => none

/-- Model of `getBoxStyle` from `src/components/DetectionResult.tsx`: coerce
the four coordinates with `Number`, then apply the scale heuristic (all four
at most `1.5` means the normalized 0-1 branch, otherwise the 0-1000 branch).
The source binds the four coerced coordinates to local variables; they are
inlined here. -/
def getBoxStyle (box : Box2d) : BoxStyle :=
  if jleB (toNumber box.ymin) (3/2) && jleB (toNumber box.xmin) (3/2) &&
      jleB (toNumber box.ymax) (3/2) && jleB (toNumber box.xmax) (3/2) then
    { top := (toNumber box.ymin).map (· * 100),
      left := (toNumber box.xmin).map (· * 100),
      width := (jsub (toNumber box.xmax) (toNumber box.xmin)).map (· * 100),
      height := (jsub (toNumber box.ymax) (toNumber box.ymin)).map (· * 100) }
  else
    { top := (toNumber box.ymin).map (· / 10),
      left := (toNumber box.xmin).map (· / 10),
      width := (jsub (toNumber box.xmax) (toNumber box.xmin)).map (· / 10),
      height := (jsub (toNumber box.ymax) (toNumber box.ymin)).map (· / 10) }

/-- The degenerate box `[5,5,2,2]` from the specification example. -/
def boxDegenerate : Box2d := ⟨.num 5, .num 5, .num 2, .num 2⟩

/-- C1 counterexample: `normalize([5,5,2,2])` yields `width = -0.3` and
`height = -0.3` (percent), not the zero-clamped values claimed by the spec:
`getBoxStyle` propagates negative width/height unchanged. -/
theorem C1_counterexample :
    (getBoxStyle boxDegenerate).width = some (-(3/10)) ∧
    (getBoxStyle boxDegenerate).height = some (-(3/10)) ∧
    (getBoxStyle boxDegenerate).width ≠ some 0 ∧
    (getBoxStyle boxDegenerate).height ≠ some 0 := by
  have h : getBoxStyle boxDegenerate = ⟨some (1/2), some (1/2), some (-(3/10)), some (-(3/10))⟩ := by
    simp only [boxDegenerate, getBoxStyle, toNumber, jleB, jsub]
    norm_num
  rw [h]
  norm_num

/-- C1 (amended): for every 4-number box with `xmax < xmin` the derived width
is strictly negative (and similarly the height when `ymax < ymin`); the
coordinate normalizer propagates negative values instead of clamping them to
zero, in both scale branches. -/
theorem C1_negative_width_propagates (y x Y X : ℚ) :
    (X < x → ∃ w, (getBoxStyle ⟨.num y, .num x, .num Y, .num X⟩).width = some w ∧ w < 0) ∧
    (Y < y → ∃ h, (getBoxStyle ⟨.num y, .num x, .num Y, .num X⟩).height = some h ∧ h < 0) := by
  unfold getBoxStyle
  constructor
  · intro hX
    split
    · exact ⟨(X - x) * 100, rfl, mul_neg_of_neg_of_pos (by linarith) (by norm_num)⟩
    · exact ⟨(X - x) / 10, rfl, div_neg_of_neg_of_pos (by linarith) (by norm_num)⟩
  · intro hY
    split
    · exact ⟨(Y - y) * 100, rfl, mul_neg_of_neg_of_pos (by linarith) (by norm_num)⟩
    · exact ⟨(Y - y) / 10, rfl, div_neg_of_neg_of_pos (by linarith) (by norm_num)⟩

/-- C1 witness: instantiating the amended claim at the spec's example box
`[5,5,2,2]` produces a concrete strictly negative width. -/
theorem C1_witness :
    (2 : ℚ) < 5 ∧
      ∃ w, (getBoxStyle ⟨.num 5, .num 5, .num 2, .num 2⟩).width = some w ∧ w < 0 :=
  ⟨by norm_num, (C1_negative_width_propagates 5 5 2 2).1 (by norm_num)⟩

/-- C2 counterexample: the two scale branches do not agree for every box.  The
normalized box `[0.001,0.001,0.001,0.001]` and its 0-1000 counterpart
`[1,1,1,1]` yield different results, because the counterpart is itself at most
`1.5` in every coordinate and is therefore misclassified into the normalized
branch (`top` becomes `100` instead of `0.1`). -/
theorem C2_counterexample :
    getBoxStyle ⟨.num (1/1000), .num (1/1000), .num (1/1000), .num (1/1000)⟩ ≠
      getBoxStyle ⟨.num 1, .num 1, .num 1, .num 1⟩ ∧
    (getBoxStyle ⟨.num (1/1000), .num (1/1000), .num (1/1000), .num (1/1000)⟩).top =
      some (1/10) ∧
    (getBoxStyle ⟨.num 1, .num 1, .num 1, .num 1⟩).top = some 100 := by
  have hA : getBoxStyle ⟨.num (1/1000), .num (1/1000), .num (1/1000), .num (1/1000)⟩ =
      ⟨some (1/10), some (1/10), some 0, some 0⟩ := by
    simp only [getBoxStyle, toNumber, jleB, jsub]
    norm_num
  have hB : getBoxStyle ⟨.num 1, .num 1, .num 1, .num 1⟩ =
      ⟨some 100, some 100, some 0, some 0⟩ := by
    simp only [getBoxStyle, toNumber, jleB, jsub]
    norm_num
  rw [hA, hB]
  norm_num

/-- C2 (amended): the two scale branches agree on output units for every box
in the normalized 0-1 convention whose 0-1000 counterpart actually exceeds the
`1.5` threshold in some coordinate (equivalently, some coordinate exceeds
`0.0015`); in particular `normalize([0.1,0.2,0.3,0.4])` equals
`normalize([100,200,300,400])` in all four fields.  Boxes below that bound are
misclassified (see the counterexample). -/
theorem C2_branches_agree (y x Y X : ℚ)
    (hy0 : 0 ≤ y) (hy1 : y ≤ 1) (hx0 : 0 ≤ x) (hx1 : x ≤ 1)
    (hY0 : 0 ≤ Y) (hY1 : Y ≤ 1) (hX0 : 0 ≤ X) (hX1 : X ≤ 1)
    (hbig : 3/2 < 1000 * y ∨ 3/2 < 1000 * x ∨ 3/2 < 1000 * Y ∨ 3/2 < 1000 * X) :
    getBoxStyle ⟨.num y, .num x, .num Y, .num X⟩ =
      getBoxStyle ⟨.num (1000 * y), .num (1000 * x), .num (1000 * Y), .num (1000 * X)⟩ := by
  have hL : getBoxStyle ⟨.num y, .num x, .num Y, .num X⟩ =
      { top := some (y * 100), left := some (x * 100),
        width := some ((X - x) * 100), height := some ((Y - y) * 100) } := by
    unfold getBoxStyle
    rw [if_pos]
    · rfl
    · simp only [toNumber, jleB, Bool.and_eq_true, decide_eq_true_eq]
      exact ⟨⟨⟨by linarith, by linarith⟩, by linarith⟩, by linarith⟩
  have hR : getBoxStyle ⟨.num (1000 * y), .num (1000 * x), .num (1000 * Y), .num (1000 * X)⟩ =
      { top := some (1000 * y / 10), left := some (1000 * x / 10),
        width := some ((1000 * X - 1000 * x) / 10),
        height := some ((1000 * Y - 1000 * y) / 10) } := by
    unfold getBoxStyle
    rw [if_neg]
    · rfl
    · simp only [toNumber, jleB, Bool.and_eq_true, decide_eq_true_eq]
      intro hc
      rcases hbig with hb | hb | hb | hb
      · linarith [hc.1.1.1]
      · linarith [hc.1.1.2]
      · linarith [hc.1.2]
      · linarith [hc.2]
  rw [hL, hR]
  simp only [BoxStyle.mk.injEq, Option.some.injEq]
  refine ⟨by ring, by ring, by ring, by ring⟩

/-- C2 witness: the spec's concrete instance, obtained from the amended claim
at `[0.1,0.2,0.3,0.4]`. -/
theorem C2_witness :
    getBoxStyle ⟨.num (1/10), .num (2/10), .num (3/10), .num (4/10)⟩ =
      getBoxStyle ⟨.num 100, .num 200, .num 300, .num 400⟩ := by
  have h := C2_branches_agree (1/10) (2/10) (3/10) (4/10)
    (by norm_num) (by norm_num) (by norm_num) (by norm_num)
    (by norm_num) (by norm_num) (by norm_num) (by norm_num)
    (Or.inl (by norm_num))
  norm_num at h ⊢
  exact h

/-! ### DetectionIndex: the `detectionsByImage` grouping

The JavaScript `Map<number, Detection[]>` is modelled as an insertion-ordered
association list.  `mset` replaces the value of an existing key in place and
otherwise appends the new entry at the end, exactly like `Map.set`; `mget`
and `mhas` are `Map.get` and `Map.has`; `mpush` models the in-place
`map.get(idx)!.push(d)` array mutation. -/

abbrev JMap := List (ℚ × List Detection)

/-- `Map.get`: the value of the first (and only) entry with the given key. -/
def mget : JMap → ℚ → Option (List Detection)
  | [], _ => none
  | e :: m, k => if e.1 = k then some e.2 else mget m k

/-- `Map.has`. -/
def mhas (m : JMap) (k : ℚ) : Bool :=
  (mget m k).isSome

/-- `Map.set`: replace in place, or append a new entry at the end. -/
def mset : JMap → ℚ → List Detection → JMap
  | [], k, v => [(k, v)]
  | e :: m, k, v => if e.1 = k then (k, v) :: m else e :: mset m k v

/-- `map.get(k)!.push(d)`: append `d` to the sequence stored at `k` (a no-op
when the key is absent; the source only pushes after ensuring presence). -/
def mpush : JMap → ℚ → Detection → JMap
  | [], _, _ => []
  | e :: m, k, d => if e.1 = k then (e.1, e.2 ++ [d]) :: m else e :: mpush m k d

/-- The key set of the map, in insertion order (`Map.keys`). -/
def mkeys (m : JMap) : List ℚ :=
  m.map Prod.fst

/-- The coercion applied to a raw `imageIndex`, from `detectionsByImage`:
`typeof d.imageIndex === 'string' ? parseInt(d.imageIndex) : d.imageIndex`.
`none` models `NaN`. -/
def resolveIndex (d : Detection) : Option ℚ :=
  match d.imageIndex with
  | .str s => (parseIntJS s).map (fun i => (i : ℚ))
  | .num q => some q
  | .nan => none

/-- The initialization pass of `detectionsByImage`: an empty sequence for
every image position `0..imageCount-1`
(`images.forEach((_, idx) => map.set(idx, []))`). -/
def initMap (n : ℕ) : JMap :=
  (List.range n).foldl (fun m i => mset m (i : ℚ) []) []

/-- One step of the `detections.forEach` loop of `detectionsByImage`: coerce
the index, range-check it against `[0, imageCount)`, ensure the key exists,
and push the record. -/
def addDetection (n : ℕ) (m : JMap) (d : Detection) : JMap :=
  match resolveIndex d with
  | none => m
  | some idx =>
    if 0 ≤ idx ∧ idx < (n : ℚ) then
      mpush (if mhas m idx then m else mset m idx []) idx d
    else m

/-- Model of the `detectionsByImage` memo from
`src/components/DetectionResult.tsx` (DetectionIndex.build): initialize all
image positions, then fold the raw batch through `addDetection`. -/
def detectionsByImage (dets : List Detection) (n : ℕ) : JMap :=
  dets.foldl (addDetection n) (initMap n)

/-- `d` lands in the group keyed `q`: its coerced index is exactly `q` and
`q` passes the range check. -/
def acceptedAt (n : ℕ) (q : ℚ) (d : Detection) : Bool :=
  match resolveIndex d with
  | some r => decide (r = q ∧ 0 ≤ r ∧ r < (n : ℚ))
  | none => false

/-- `d` passes the range check for some key (it is not dropped). -/
def acceptedIdx (n : ℕ) (d : Detection) : Bool :=
  match resolveIndex d with
  | some r => decide (0 ≤ r ∧ r < (n : ℚ))
  | none => false

/-- Whether `q` is one of the integer keys created by the initialization pass. -/
def hasIntKey (n : ℕ) (q : ℚ) : Bool :=
  (List.range n).any (fun i => decide ((i : ℚ) = q))

lemma mget_mset (m : JMap) (k : ℚ) (v : List Detection) (q : ℚ) :
    mget (mset m k v) q = if q = k then some v else mget m q := by
  induction m with
  | nil =>
    by_cases h : q = k
    · simp [mset, mget, h]
    · have h2 : ¬ k = q := fun hh => h hh.symm
      simp [mset, mget, h, h2]
  | cons e m ih =>
    by_cases hek : e.1 = k
    · by_cases hqk : q = k
      · simp [mset, mget, hek, hqk]
      · have h2 : ¬ k = q := fun hh => hqk hh.symm
        have h3 : ¬ e.1 = q := hek ▸ h2
        simp [mset, mget, hek, hqk, h2, h3]
    · by_cases hqe : e.1 = q
      · have hqk : ¬ q = k := fun hh => hek (hqe.trans hh)
        simp [mset, mget, hek, hqe, hqk]
      · simp [mset, mget, hek, hqe, ih]

lemma mget_mpush (m : JMap) (k : ℚ) (d : Detection) (q : ℚ) :
    mget (mpush m k d) q =
      if q = k then (mget m q).map (fun l => l ++ [d]) else mget m q := by
  induction m with
  | nil =>
    by_cases h : q = k <;> simp [mpush, mget, h]
  | cons e m ih =>
    by_cases hek : e.1 = k
    · by_cases hqk : q = k
      · have h3 : e.1 = q := hek.trans hqk.symm
        simp [mpush, mget, hek, hqk, h3]
      · have h3 : ¬ e.1 = q := fun hh => hqk ((hh.symm.trans hek))
        have h4 : ¬ k = q := hek ▸ h3
        simp [mpush, mget, hek, hqk, h3, h4]
    · by_cases hqe : e.1 = q
      · have hqk : ¬ q = k := fun hh => hek (hqe.trans hh)
        simp [mpush, mget, hek, hqe, hqk]
      · simp [mpush, mget, hek, hqe, ih]

lemma mem_mkeys_iff (m : JMap) (q : ℚ) :
    q ∈ mkeys m ↔ (mget m q).isSome := by
  induction m with
  | nil => simp [mkeys, mget]
  | cons e m ih =>
    by_cases h : e.1 = q
    · simp [mkeys, mget, h]
    · have h2 : ¬ q = e.1 := fun hh => h hh.symm
      simp only [mkeys, List.map_cons, List.mem_cons, mget, h, if_false, h2,
        false_or] at ih ⊢
      exact ih

lemma initMap_get (n : ℕ) (q : ℚ) :
    mget (initMap n) q = if hasIntKey n q then some [] else none := by
  induction n with
  | zero => simp [initMap, hasIntKey, mget]
  | succ n ih =>
    have hstep : initMap (n + 1) = mset (initMap n) (n : ℚ) [] := by
      simp [initMap, List.range_succ]
    have hkey : hasIntKey (n + 1) q = (hasIntKey n q || decide ((n : ℚ) = q)) := by
      simp [hasIntKey, List.range_succ]
    rw [hstep, mget_mset, ih, hkey]
    by_cases hq : q = (n : ℚ)
    · subst hq
      simp
    · have h2 : ¬ ((n : ℚ) = q) := fun hh => hq hh.symm
      simp [hq, h2]

lemma addDetection_get (n : ℕ) (m : JMap) (d : Detection) (q : ℚ) :
    mget (addDetection n m d) q =
      if acceptedAt n q d then some ((mget m q).getD [] ++ [d]) else mget m q := by
  cases hres : resolveIndex d with
  | none => simp [addDetection, acceptedAt, hres]
  | some r =>
    simp only [addDetection, acceptedAt, hres]
    by_cases hrange : 0 ≤ r ∧ r < (n : ℚ)
    · rw [if_pos hrange, mget_mpush]
      by_cases hq : q = r
      · subst hq
        have hacc : (decide (q = q ∧ 0 ≤ q ∧ q < (n : ℚ))) = true := by
          simp [hrange.1, hrange.2]
        rw [if_pos rfl, hacc, if_pos rfl]
        by_cases hh : mhas m q = true
        · rw [if_pos hh]
          rcases Option.isSome_iff_exists.mp (by simpa [mhas] using hh) with ⟨l, hl⟩
          simp [hl]
        · rw [if_neg hh, mget_mset, if_pos rfl]
          have hg : mget m q = none := by
            simp only [mhas] at hh
            exact Option.not_isSome_iff_eq_none.mp (by simpa using hh)
          simp [hg]
      · have hacc : (decide (r = q ∧ 0 ≤ r ∧ r < (n : ℚ))) = false := by
          simp only [decide_eq_false_iff_not]
          rintro ⟨hrq, -, -⟩
          exact hq (hrq.symm)
        rw [if_neg hq, hacc]
        have hset : mget (if mhas m r then m else mset m r []) q = mget m q := by
          by_cases hh : mhas m r = true
          · rw [if_pos hh]
          · rw [if_neg hh, mget_mset, if_neg hq]
        simp [hset]
    · have hacc : (decide (r = q ∧ 0 ≤ r ∧ r < (n : ℚ))) = false := by
        simp only [decide_eq_false_iff_not]
        rintro ⟨-, h1, h2⟩
        exact hrange ⟨h1, h2⟩
      rw [if_neg hrange, hacc]
      simp

lemma foldl_add_get (dets : List Detection) (n : ℕ) (m : JMap) (q : ℚ) :
    mget (dets.foldl (addDetection n) m) q =
      if mhas m q || dets.any (acceptedAt n q)
      then some ((mget m q).getD [] ++ dets.filter (acceptedAt n q))
      else none := by
  induction dets generalizing m with
  | nil =>
    by_cases hh : mhas m q = true
    · rcases Option.isSome_iff_exists.mp (by simpa [mhas] using hh) with ⟨l, hl⟩
      simp [hh, hl]
    · have : mget m q = none := by
        simp only [mhas] at hh
        exact Option.not_isSome_iff_eq_none.mp (by simpa using hh)
      simp [hh, this]
  | cons d dets ih =>
    rw [List.foldl_cons, ih]
    by_cases hacc : acceptedAt n q d = true
    · have hget := addDetection_get n m d q
      rw [hacc, if_pos rfl] at hget
      have hhas : mhas (addDetection n m d) q = true := by
        simp [mhas, hget]
      rw [hhas, hget]
      simp [hacc, List.filter_cons, List.append_assoc]
    · have hget := addDetection_get n m d q
      rw [if_neg hacc] at hget
      have hhas : mhas (addDetection n m d) q = mhas m q := by
        simp [mhas, hget]
      rw [hhas, hget]
      have hb : acceptedAt n q d = false := by
        simpa using hacc
      simp [List.filter_cons, List.any_cons, hb]

/-- Characterization of the grouping: a key is present exactly when it is one
of the initialized integer positions or some record was accepted at it, and
its value is the arrival-ordered sublist of accepted records. -/
lemma build_get (dets : List Detection) (n : ℕ) (q : ℚ) :
    mget (detectionsByImage dets n) q =
      if hasIntKey n q || dets.any (acceptedAt n q)
      then some (dets.filter (acceptedAt n q))
      else none := by
  rw [detectionsByImage, foldl_add_get]
  have h1 : mhas (initMap n) q = hasIntKey n q := by
    simp only [mhas, initMap_get]
    by_cases h : hasIntKey n q = true <;> simp [h]
  rw [h1, initMap_get]
  by_cases h : hasIntKey n q = true <;> simp [h]

lemma build_isSome (dets : List Detection) (n : ℕ) (q : ℚ) :
    (mget (detectionsByImage dets n) q).isSome ↔
      (hasIntKey n q || dets.any (acceptedAt n q)) = true := by
  rw [build_get]
  by_cases h : (hasIntKey n q || dets.any (acceptedAt n q)) = true <;> simp [h]

lemma acceptedAt_bounds (n : ℕ) (q : ℚ) (d : Detection) (h : acceptedAt n q d = true) :
    0 ≤ q ∧ q < (n : ℚ) := by
  unfold acceptedAt at h
  cases hres : resolveIndex d with
  | none => rw [hres] at h; simp at h
  | some r =>
    rw [hres] at h
    simp only [decide_eq_true_eq] at h
    rcases h with ⟨rfl, h1, h2⟩
    exact ⟨h1, h2⟩

lemma acceptedAt_to_idx (n : ℕ) (q : ℚ) (d : Detection) (h : acceptedAt n q d = true) :
    acceptedIdx n d = true := by
  unfold acceptedAt at h
  unfold acceptedIdx
  cases hres : resolveIndex d with
  | none => rw [hres] at h; simp at h
  | some r =>
    rw [hres] at h
    simp only [decide_eq_true_eq] at h ⊢
    exact h.2

lemma hasIntKey_bounds (n : ℕ) (q : ℚ) (h : hasIntKey n q = true) :
    0 ≤ q ∧ q < (n : ℚ) := by
  simp only [hasIntKey, List.any_eq_true, List.mem_range, decide_eq_true_eq] at h
  rcases h with ⟨i, hi, rfl⟩
  exact ⟨Nat.cast_nonneg i, by exact_mod_cast hi⟩

lemma hasIntKey_of_lt (n i : ℕ) (h : i < n) : hasIntKey n (i : ℚ) = true := by
  simp only [hasIntKey, List.any_eq_true, List.mem_range, decide_eq_true_eq]
  exact ⟨i, h, rfl⟩

lemma mem_group_of_accepted (dets : List Detection) (n : ℕ) (d : Detection) (q : ℚ)
    (hmem : d ∈ dets) (hacc : acceptedAt n q d = true) :
    d ∈ (mget (detectionsByImage dets n) q).getD [] := by
  rw [build_get]
  have hany : dets.any (acceptedAt n q) = true := List.any_eq_true.mpr ⟨d, hmem, hacc⟩
  rw [hany, Bool.or_true, if_pos rfl]
  simp [List.mem_filter, hmem, hacc]

/-- C4 counterexample detection: a native fractional `imageIndex` of `1.5`. -/
def detFractional : Detection :=
  ⟨"HOLES", 9/10, "x", .num (3/2), ⟨.num 10, .num 10, .num 50, .num 50⟩⟩

/-- C4 counterexample: with `imageCount = 3`, a record carrying the native
fractional `imageIndex` `1.5` passes the range check and creates the
non-integer key `1.5`, so the key set of the grouping is not exactly
`{0, 1, 2}`. -/
theorem C4_counterexample :
    (3/2 : ℚ) ∈ mkeys (detectionsByImage [detFractional] 3) ∧
    ¬ ∃ i : ℕ, i < 3 ∧ ((i : ℚ) = 3/2) := by
  constructor
  · rw [mem_mkeys_iff, build_isSome, Bool.or_eq_true]
    refine Or.inr (List.any_eq_true.mpr ⟨detFractional, by simp, ?_⟩)
    simp only [acceptedAt, resolveIndex, detFractional, decide_eq_true_eq]
    norm_num
  · rintro ⟨i, hi, he⟩
    interval_cases i <;> norm_num at he

/-- C4 (amended): every key of the grouping lies in `[0, imageCount)` and
every integer position `0..imageCount-1` is present (possibly empty), but the
key set can be a strict superset of `{0,...,imageCount-1}`: a record with a
fractional in-range native `imageIndex` adds its non-integer value as an
extra key (see the counterexample). -/
theorem C4_key_range (dets : List Detection) (n : ℕ) :
    (∀ q ∈ mkeys (detectionsByImage dets n), 0 ≤ q ∧ q < (n : ℚ)) ∧
    (∀ i : ℕ, i < n → ((i : ℚ) ∈ mkeys (detectionsByImage dets n))) := by
  constructor
  · intro q hq
    rw [mem_mkeys_iff, build_isSome, Bool.or_eq_true] at hq
    rcases hq with h | h
    · exact hasIntKey_bounds n q h
    · rcases List.any_eq_true.mp h with ⟨d, hd, hacc⟩
      exact acceptedAt_bounds n q d hacc
  · intro i hi
    rw [mem_mkeys_iff, build_isSome, Bool.or_eq_true]
    exact Or.inl (hasIntKey_of_lt n i hi)

/-- C4 witness: with two images and an empty batch, key `1` is present and in
range. -/
theorem C4_witness :
    ((1 : ℚ) ∈ mkeys (detectionsByImage [] 2)) ∧ (0 ≤ (1 : ℚ) ∧ (1 : ℚ) < (2 : ℕ)) := by
  have h1 := (C4_key_range [] 2).2 1 (by norm_num)
  have h2 := (C4_key_range [] 2).1 1 (by exact_mod_cast h1)
  exact ⟨by exact_mod_cast h1, h2⟩

/-- C5: a record whose coerced `imageIndex` is unparseable or out of range
appears in no group, and every integer group holds exactly the accepted
records of the batch in arrival order (so a single bad record never disturbs
the rest of the batch). -/
theorem C5_out_of_range_dropped (dets : List Detection) (n : ℕ) :
    (∀ d ∈ dets, acceptedIdx n d = false →
      ∀ q l, mget (detectionsByImage dets n) q = some l → d ∉ l) ∧
    (∀ i : ℕ, i < n →
      mget (detectionsByImage dets n) (i : ℚ) =
        some (dets.filter (acceptedAt n (i : ℚ)))) := by
  constructor
  · intro d hd hrej q l hl hmem
    rw [build_get] at hl
    by_cases hcond : (hasIntKey n q || dets.any (acceptedAt n q)) = true
    · rw [if_pos hcond] at hl
      have hfil : l = dets.filter (acceptedAt n q) := by
        exact (Option.some.injEq _ _ ▸ hl).symm ▸ rfl
      rw [hfil] at hmem
      have hacc : acceptedAt n q d = true := (List.mem_filter.mp hmem).2
      rw [acceptedAt_to_idx n q d hacc] at hrej
      exact Bool.true_eq_false.mp hrej
    · rw [if_neg hcond] at hl
      exact Option.noConfusion hl
  · intro i hi
    rw [build_get, hasIntKey_of_lt n i hi, Bool.true_or, if_pos rfl]

/-- C5 example records from the spec: a stringified in-range index and a
native out-of-range index. -/
def detStrOne : Detection :=
  ⟨"HOLES", 9/10, "x", .str "1", ⟨.num 10, .num 10, .num 50, .num 50⟩⟩

def detSeven : Detection :=
  ⟨"HOLES", 9/10, "x", .num 7, ⟨.num 10, .num 10, .num 50, .num 50⟩⟩

lemma resolveIndex_detStrOne : resolveIndex detStrOne = some 1 := by
  have hp : parseIntJS "1" = some 1 := by decide
  simp [resolveIndex, detStrOne, hp]

/-- C5 witness: the spec's end-to-end example with `imageCount = 3`: the
record with `imageIndex "1"` is grouped at key `1`, and the record with
`imageIndex 7` appears in no group. -/
theorem C5_witness :
    mget (detectionsByImage [detStrOne, detSeven] 3) 1 = some [detStrOne] ∧
    (∀ q l, mget (detectionsByImage [detStrOne, detSeven] 3) q = some l →
      detSeven ∉ l) := by
  have h := C5_out_of_range_dropped [detStrOne, detSeven] 3
  constructor
  · have h2 := h.2 1 (by norm_num)
    have hacc1 : acceptedAt 3 1 detStrOne = true := by
      simp only [acceptedAt, resolveIndex_detStrOne, decide_eq_true_eq]
      norm_num
    have hacc2 : acceptedAt 3 1 detSeven = false := by
      simp only [acceptedAt, resolveIndex, detSeven, decide_eq_false_iff_not]
      norm_num
    rw [show ((1 : ℕ) : ℚ) = (1 : ℚ) by norm_num] at h2
    rw [h2, List.filter_cons, List.filter_cons, hacc1, List.filter_nil]
    simp [hacc2]
  · intro q l hl
    refine h.1 detSeven (by simp) ?_ q l hl
    simp only [acceptedIdx, resolveIndex, detSeven, decide_eq_false_iff_not]
    norm_num

/-- C10 witness detection: native fractional index `1.5`. -/
def detFrac10 : Detection :=
  ⟨"DEFORMATION & DENTS", 1/2, "y", .num (3/2), ⟨.num 1, .num 1, .num 1, .num 1⟩⟩

/-- C10: a native (non-string) `imageIndex` is used unchanged as group key:
any detection with native fractional index `f` in `[0, imageCount)` is
accepted and grouped under `f` itself, and when `f` is not an integer this
key lies outside the dense integer key set created by initialization. -/
theorem C10_fractional_key (dets : List Detection) (n : ℕ) (d : Detection) (f : ℚ)
    (hmem : d ∈ dets) (hidx : d.imageIndex = .num f) (h0 : 0 ≤ f) (hn : f < (n : ℚ)) :
    d ∈ (mget (detectionsByImage dets n) f).getD [] ∧
    ((∀ i : ℕ, (i : ℚ) ≠ f) → f ∉ mkeys (initMap n)) := by
  constructor
  · refine mem_group_of_accepted dets n d f hmem ?_
    simp only [acceptedAt, resolveIndex, hidx, decide_eq_true_eq]
    exact ⟨by simp, h0, hn⟩
  · intro hnotint hmemk
    rw [mem_mkeys_iff, initMap_get] at hmemk
    by_cases hk : hasIntKey n f = true
    · simp only [hasIntKey, List.any_eq_true, List.mem_range, decide_eq_true_eq] at hk
      rcases hk with ⟨i, -, hi⟩
      exact hnotint i hi
    · rw [if_neg hk] at hmemk
      simp at hmemk

/-- C10 witness: the record with native `imageIndex` `1.5` and `imageCount 3`
is grouped under the non-integer key `1.5`, which the initialization pass did
not create. -/
theorem C10_witness :
    detFrac10 ∈ (mget (detectionsByImage [detFrac10] 3) (3/2)).getD [] ∧
    (3/2 : ℚ) ∉ mkeys (initMap 3) := by
  have h := C10_fractional_key [detFrac10] 3 detFrac10 (3/2)
    (by simp) rfl (by norm_num) (by norm_num)
  refine ⟨h.1, h.2 ?_⟩
  intro i hi
  have h2 : ((2 * i : ℕ) : ℚ) = 3 := by push_cast; linarith
  have h3 : (2 * i : ℕ) = 3 := by exact_mod_cast h2
  omega

/-- C3 counterexample detection: valid `imageIndex` but entirely non-numeric
box coordinates. -/
def detBadBox : Detection :=
  ⟨"HOLES", 9/10, "x", .num 0, ⟨.str "a", .str "b", .str "c", .str "d"⟩⟩

/-- C3 counterexample: a record whose box coordinates are all non-numeric is
NOT dropped: with `imageIndex 0` and `imageCount 1` it appears in group `0`,
contradicting the claim that such records appear in no group. -/
theorem C3_counterexample :
    detBadBox ∈ (mget (detectionsByImage [detBadBox] 1) 0).getD [] := by
  refine mem_group_of_accepted [detBadBox] 1 detBadBox 0 (by simp) ?_
  simp only [acceptedAt, resolveIndex, detBadBox, decide_eq_true_eq]
  norm_num

/-- C3 (amended): the grouping never inspects the box coordinates, so a
record with entirely non-numeric box coordinates but an in-range
`imageIndex` is kept in its group; the normalizer coerces such coordinates
to `NaN` and still returns a (fully `NaN`) style rather than failing, so no
error escapes either function.  The spec's claim that such records are
dropped does not hold. -/
theorem C3_nonnumeric_box_kept (dets : List Detection) (n : ℕ) (d : Detection) (q : ℚ)
    (hmem : d ∈ dets) (hres : resolveIndex d = some q) (h0 : 0 ≤ q) (hn : q < (n : ℚ))
    (hym : toNumber d.box_2d.ymin = none) (hxm : toNumber d.box_2d.xmin = none)
    (hyM : toNumber d.box_2d.ymax = none) (hxM : toNumber d.box_2d.xmax = none) :
    d ∈ (mget (detectionsByImage dets n) q).getD [] ∧
    getBoxStyle d.box_2d = ⟨none, none, none, none⟩ := by
  constructor
  · refine mem_group_of_accepted dets n d q hmem ?_
    simp only [acceptedAt, hres, decide_eq_true_eq]
    exact ⟨by simp, h0, hn⟩
  · simp [getBoxStyle, jleB, jsub, hym, hxm, hyM, hxM]

/-- C3 witness: the counterexample record, through the amended claim: it is
kept in group `0` and its overlay style is fully `NaN`. -/
theorem C3_witness :
    detBadBox ∈ (mget (detectionsByImage [detBadBox] 1) 0).getD [] ∧
    getBoxStyle detBadBox.box_2d = ⟨none, none, none, none⟩ := by
  have hnum : parseNumberJS "a" = none ∧ parseNumberJS "b" = none ∧
      parseNumberJS "c" = none ∧ parseNumberJS "d" = none := by
    refine ⟨?_, ?_, ?_, ?_⟩ <;> decide
  refine C3_nonnumeric_box_kept [detBadBox] 1 detBadBox 0 (by simp) ?_ (by norm_num)
    (by norm_num) ?_ ?_ ?_ ?_
  · simp [resolveIndex, detBadBox]
  · simpa [detBadBox, toNumber] using hnum.1
  · simpa [detBadBox, toNumber] using hnum.2.1
  · simpa [detBadBox, toNumber] using hnum.2.2.1
  · simpa [detBadBox, toNumber] using hnum.2.2.2

/-! ### SelectionState -/

/-- Model of the read-time clamp in the `DetectionResult` component: rendering
is suppressed (`none`) when there are no images, and otherwise
`safeIndex = selectedIndex >= images.length ? 0 : selectedIndex`. -/
def resolveSelection (selectedIndex : ℕ) (imageCount : ℕ) : Option ℕ :=
  if imageCount = 0 then none
  else some (if selectedIndex ≥ imageCount then 0 else selectedIndex)

/-- The data the component derives for the selected image: the clamped index
and `detectionsByImage.get(safeIndex) || []`; `none` models the early
`return null`. -/
def detectionResultView (dets : List Detection) (imageCount : ℕ) (selectedIndex : ℕ) :
    Option (ℕ × List Detection) :=
  match resolveSelection selectedIndex imageCount with
  | none => none
  | some safe => some (safe, (mget (detectionsByImage dets imageCount) (safe : ℚ)).getD [])

/-- C6: read-time selection resolution is safe: with at least one image the
resolved index is strictly below the image count (and it is `0` whenever the
stored index is out of range), and with no images resolution yields no
selection and the dependent rendering is suppressed. -/
theorem C6_selection_safe (dets : List Detection) (sel n : ℕ) :
    (0 < n → ∃ k, resolveSelection sel n = some k ∧ k < n ∧ (n ≤ sel → k = 0)) ∧
    (n = 0 → resolveSelection sel n = none ∧ detectionResultView dets n sel = none) := by
  constructor
  · intro hn
    by_cases hs : sel ≥ n
    · refine ⟨0, ?_, hn, fun _ => rfl⟩
      simp [resolveSelection, Nat.pos_iff_ne_zero.mp hn, hs]
    · refine ⟨sel, ?_, by omega, fun hc => absurd hc hs⟩
      simp [resolveSelection, Nat.pos_iff_ne_zero.mp hn, hs]
  · intro hn
    subst hn
    exact ⟨by simp [resolveSelection], by simp [detectionResultView, resolveSelection]⟩

/-- C6 witness: a stale stored index `5` against `2` images resolves to `0`,
and `0` images yield no selection. -/
theorem C6_witness :
    (∃ k, resolveSelection 5 2 = some k ∧ k < 2 ∧ (2 ≤ 5 → k = 0)) ∧
    resolveSelection 5 0 = none := by
  exact ⟨(C6_selection_safe [] 5 2).1 (by norm_num),
    ((C6_selection_safe [] 5 0).2 rfl).1⟩

/-! ### HistoryStore: the `useHistory` hook in `src/App.tsx` -/

def MAX_HISTORY : ℕ := 10

/-- Model of `useHistory.commit` from `src/App.tsx`: no-op on
whitespace-only current value, no-op when the head of the history already
equals the current value, otherwise prepend and truncate to `MAX_HISTORY`.
JavaScript `""` is falsy, so `!currentValue.trim()` is the emptiness test. -/
def commit (currentValue : String) (history : List String) : List String :=
  if jsTrim currentValue = "" then history
  else if history.head? = some currentValue then history
  else (currentValue :: history).take MAX_HISTORY

/-- Committing a sequence of values in order, starting from an empty history
(one `commit()` per submission). -/
def commitAll (values : List String) : List String :=
  values.foldl (fun h v => commit v h) []

lemma head?_take_ten (l : List String) : (l.take MAX_HISTORY).head? = l.head? := by
  cases l <;> simp [MAX_HISTORY]

lemma head?_mem_of_eq {l : List String} {v : String} (h : l.head? = some v) : v ∈ l := by
  cases l with
  | nil => simp at h
  | cons a t =>
    simp only [List.head?_cons, Option.some.injEq] at h
    exact h ▸ List.mem_cons_self a t

/-- Committing pairwise-distinct non-blank values in order yields exactly the
ten most recent of them, newest first. -/
lemma commitAll_nodup (vs : List String) (hnd : vs.Nodup)
    (hne : ∀ v ∈ vs, jsTrim v ≠ "") :
    commitAll vs = vs.reverse.take MAX_HISTORY := by
  induction vs using List.reverseRecOn with
  | nil => simp [commitAll]
  | append_singleton vs v ih =>
    have hnd' : vs.Nodup := (List.nodup_append.mp hnd).1
    have hvn : v ∉ vs := by
      intro hv
      rcases List.nodup_append.mp hnd with ⟨-, -, hdisj⟩
      exact hdisj hv (List.mem_singleton_self v)
    have hne' : ∀ w ∈ vs, jsTrim w ≠ "" := fun w hw => hne w (List.mem_append_left _ hw)
    have hvne : jsTrim v ≠ "" := hne v (List.mem_append_right _ (List.mem_singleton_self v))
    have hfold : commitAll (vs ++ [v]) = commit v (commitAll vs) := by
      simp [commitAll, List.foldl_append]
    rw [hfold, ih hnd' hne', commit, if_neg hvne, if_neg]
    · rw [List.reverse_append]
      simp only [List.reverse_singleton, List.singleton_append]
      show (v :: List.take (9+1) vs.reverse).take (9+1) = (v :: vs.reverse).take (9+1)
      rw [List.take_succ_cons, List.take_succ_cons, List.take_take]
      norm_num
    · rw [head?_take_ten]
      intro hh
      exact hvn (List.mem_reverse.mp (head?_mem_of_eq hh))

/-- C7: `commit` is a no-op on blank values and on duplicate heads, otherwise
prepends and truncates to the ten most recent entries; committing the same
non-blank value twice from an empty history leaves one entry, and committing
eleven distinct non-blank values leaves exactly the ten most recent, newest
first. -/
theorem C7_commit_spec :
    (∀ v h, jsTrim v = "" → commit v h = h) ∧
    (∀ v h, h.head? = some v → commit v h = h) ∧
    (∀ v h, jsTrim v ≠ "" → h.head? ≠ some v → commit v h = (v :: h).take 10) ∧
    (∀ v, jsTrim v ≠ "" → commitAll [v, v] = [v]) ∧
    (∀ vs : List String, vs.length = 11 → vs.Nodup → (∀ v ∈ vs, jsTrim v ≠ "") →
      commitAll vs = vs.reverse.take 10 ∧ (commitAll vs).length = 10) := by
  refine ⟨?_, ?_, ?_, ?_, ?_⟩
  · intro v h hv
    simp [commit, hv]
  · intro v h hh
    rcases Decidable.em (jsTrim v = "") with he | he
    · simp [commit, he]
    · simp [commit, he, hh]
  · intro v h hv hh
    simp [commit, hv, hh, MAX_HISTORY]
  · intro v hv
    have h1 : commit v [] = [v] := by simp [commit, hv, MAX_HISTORY]
    have h2 : commit v [v] = [v] := by simp [commit, hv]
    simp [commitAll, h1, h2]
  · intro vs hlen hnd hne
    have h := commitAll_nodup vs hnd hne
    refine ⟨by simpa [MAX_HISTORY] using h, ?_⟩
    rw [h]
    simp only [List.length_take, List.length_reverse, hlen, MAX_HISTORY]
    norm_num

/-- C7 witness: concrete runs of the store: a duplicate commit keeps a single
entry, and eleven distinct commits keep the ten most recent, newest first. -/
theorem C7_witness :
    commitAll ["a", "a"] = ["a"] ∧
    commitAll ["a", "b", "c", "d", "e", "f", "g", "h", "i", "j", "k"] =
      ["k", "j", "i", "h", "g", "f", "e", "d", "c", "b"] := by
  constructor
  · exact C7_commit_spec.2.2.2.1 "a" (by decide)
  · have h := (C7_commit_spec.2.2.2.2 ["a", "b", "c", "d", "e", "f", "g", "h", "i", "j", "k"]
      (by decide) (by decide) (by decide)).1
    rw [h]
    decide

/-! ### JSON values and `JSON.parse`

`useHistory` and `handleSubmit` both call `JSON.parse`, so the persisted
history and the model response are modelled as JSON texts run through an
executable recursive-descent parser for the JSON grammar (whitespace, `null`,
booleans, numbers, strings with escapes, arrays, objects; parse failure is
`none`, modelling the thrown `SyntaxError`). -/

inductive Json where
  | null
  | bool (b : Bool)
  | num (q : ℚ)
  | str (s : String)
  | arr (elems : List Json)
  | obj (members : List (String × Json))

/-- JSON insignificant whitespace (space, tab, line feed, carriage return —
the same set as `isJsSpace`). -/
def skipWs (cs : List Char) : List Char :=
  cs.dropWhile isJsSpace

/-- Single-character string escapes of JSON. -/
def escChar (e : Char) : Option Char :=
  if e = '"' then some '"'
  else if e = '\\' then some '\\'
  else if e = '/' then some '/'
  else if e = 'b' then some (Char.ofNat 8)
  else if e = 'f' then some (Char.ofNat 12)
  else if e = 'n' then some '\n'
  else if e = 'r' then some '\r'
  else if e = 't' then some '\t'
  else none

/-- Value of one hexadecimal digit. -/
def hexVal (c : Char) : Option ℕ :=
  if c.isDigit then some (c.toNat - 48)
  else if 'a' ≤ c ∧ c ≤ 'f' then some (c.toNat - 87)
  else if 'A' ≤ c ∧ c ≤ 'F' then some (c.toNat - 55)
  else none

/-- Body of a JSON string after the opening quote: the decoded string and the
input remaining after the closing quote.  Unescaped control characters are
rejected, as in JSON. -/
def parseStringBody : ℕ → List Char → Option (String × List Char)
  | 0, _ => none
  | _ + 1, [] => none
  | fuel + 1, c :: rest =>
    if c = '"' then some ("", rest)
    else if c = '\\' then
      match rest with
      | 'u' :: h1 :: h2 :: h3 :: h4 :: rest2 =>
        match hexVal h1, hexVal h2, hexVal h3, hexVal h4 with
        | some a, some b, some c3, some d4 =>
          (parseStringBody fuel rest2).map
            (fun p => (String.mk (Char.ofNat (((a * 16 + b) * 16 + c3) * 16 + d4) :: p.1.toList), p.2))
        | _, _, _, _ => none
      | e :: rest2 =>
        match escChar e with
        | some ec => (parseStringBody fuel rest2).map (fun p => (String.mk (ec :: p.1.toList), p.2))
        | none => none
      | [] => none
    else if c.toNat < 32 then none
    else (parseStringBody fuel rest).map (fun p => (String.mk (c :: p.1.toList), p.2))

/-- Exponent part of a JSON number token (need not consume all input). -/
def expTok (r : List Char) : Option (ℤ × List Char) :=
  let (esgn, r1) : ℤ × List Char := match r with
    | '-' :: t => (-1, t)
    | '+' :: t => (1, t)
    | _ => (1, r)
  let eds := r1.takeWhile Char.isDigit
  if eds.isEmpty then none
  else some (esgn * (digitsVal eds : ℤ), r1.dropWhile Char.isDigit)

/-- A JSON number token: optional minus, integer part without leading zeros,
optional fraction, optional exponent. -/
def parseNumberTok (cs : List Char) : Option (ℚ × List Char) :=
  let (neg, cs1) : Bool × List Char := match cs with
    | '-' :: r => (true, r)
    | _ => (false, cs)
  let intDs := cs1.takeWhile Char.isDigit
  let r1 := cs1.dropWhile Char.isDigit
  if intDs.isEmpty then none
  else if intDs.length > 1 ∧ intDs.head? = some '0' then none
  else
    let step2 : Option (List Char × List Char) := match r1 with
      | '.' :: r =>
        let fds := r.takeWhile Char.isDigit
        if fds.isEmpty then none else some (fds, r.dropWhile Char.isDigit)
      | _ => some ([], r1)
    match step2 with
    | none => none
    | some (fracDs, r2) =>
      let step3 : Option (ℤ × List Char) := match r2 with
        | 'e' :: r => expTok r
        | 'E' :: r => expTok r
        | _ => some (0, r2)
      match step3 with
      | none => none
      | some (ex, r3) =>
        let mant : ℚ := (digitsVal intDs : ℚ) + (digitsVal fracDs : ℚ) / (10 ^ fracDs.length : ℚ)
        some ((if neg then -mant else mant) * (10 : ℚ) ^ ex, r3)

mutual

/-- One JSON value, by recursive descent over an explicit fuel bound (the
brace characters are written with hexadecimal escapes). -/
def parseValue : ℕ → List Char → Option (Json × List Char)
  | 0, _ => none
  | fuel + 1, cs =>
    match skipWs cs with
    | 'n' :: 'u' :: 'l' :: 'l' :: rest => some (.null, rest)
    | 't' :: 'r' :: 'u' :: 'e' :: rest => some (.bool true, rest)
    | 'f' :: 'a' :: 'l' :: 's' :: 'e' :: rest => some (.bool false, rest)
    | '"' :: rest => (parseStringBody (rest.length + 1) rest).map (fun p => (Json.str p.1, p.2))
    | '[' :: rest =>
      (match skipWs rest with
       | ']' :: r2 => some (Json.arr [], r2)
       | r2 => (parseElems fuel r2).map (fun p => (Json.arr p.1, p.2)))
    | '\x7b' :: rest =>
      (match skipWs rest with
       | '\x7d' :: r2 => some (Json.obj [], r2)
       | r2 => (parseMembers fuel r2).map (fun p => (Json.obj p.1, p.2)))
    | cs2 => (parseNumberTok cs2).map (fun p => (Json.num p.1, p.2))

/-- A non-empty comma-separated list of values up to the closing bracket. -/
def parseElems : ℕ → List Char → Option (List Json × List Char)
  | 0, _ => none
  | fuel + 1, cs =>
    match parseValue fuel cs with
    | none => none
    | some (v, r) =>
      match skipWs r with
      | ',' :: r2 => (parseElems fuel r2).map (fun p => (v :: p.1, p.2))
      | ']' :: r2 => some ([v], r2)
      | _ => none

/-- A non-empty comma-separated list of object members up to the closing
brace. -/
def parseMembers : ℕ → List Char → Option (List (String × Json) × List Char)
  | 0, _ => none
  | fuel + 1, cs =>
    match skipWs cs with
    | '"' :: r =>
      (match parseStringBody (r.length + 1) r with
       | none => none
       | some (k, r1) =>
         match skipWs r1 with
         | ':' :: r2 =>
           (match parseValue fuel r2 with
            | none => none
            | some (v, r3) =>
              match skipWs r3 with
              | ',' :: r4 => (parseMembers fuel r4).map (fun p => ((k, v) :: p.1, p.2))
              | '\x7d' :: r4 => some ([(k, v)], r4)
              | _ => none)
         | _ => none)
    | _ => none

end

/-- `JSON.parse`: parse one value and require only whitespace after it;
`none` models a thrown `SyntaxError`. -/
def jsonParse (s : String) : Option Json :=
  match parseValue (2 * s.length + 2) s.toList with
  | some (v, rest) => if (skipWs rest).isEmpty then some v else none
  | none => none

/-- Whether a JSON value is a well-formed sequence of strings (the shape the
source ascribes to a persisted history with its `string[]` annotation). -/
def isStringArray : Json → Bool
  | .arr l => l.all (fun e => match e with | .str _ => true | _ => false)
  | _ => false

/-! ### HistoryStore persistence: the load paths of `usePersistentString` and
`useHistory` in `src/App.tsx`.  The external key-value store is modelled by
the `Option String` it holds for a key (`localStorage.getItem` returns null
for an absent key; a `getItem` that itself throws is caught by the source and
behaves like absence/default). -/

/-- `usePersistentString` initializer: `localStorage.getItem(key) ?? defaultValue`. -/
def loadCurrent (stored : Option String) (defaultValue : String) : String :=
  stored.getD defaultValue

/-- `useHistory` initializer: `saved ? JSON.parse(saved) : []`, with any
`JSON.parse` exception caught and degraded to `[]`.  The empty string is
falsy, hence also `[]`.  Note the result is whatever JSON value was stored,
not necessarily an array of strings. -/
def loadHistory (stored : Option String) : Json :=
  match stored with
  | none => Json.arr []
  | some s => if s = "" then Json.arr [] else (jsonParse s).getD (Json.arr [])

/-- C8 counterexample: the persisted history text `"[true]"` is valid JSON
but not a sequence of strings, yet `load` returns it as-is instead of
treating it as the empty history, contradicting the claim. -/
theorem C8_counterexample :
    loadHistory (some "[true]") = Json.arr [Json.bool true] ∧
    isStringArray (Json.arr [Json.bool true]) = false ∧
    Json.arr [Json.bool true] ≠ Json.arr [] := by
  refine ⟨rfl, rfl, ?_⟩
  intro h
  injection h with h2
  exact List.noConfusion h2

/-- C8 (amended): the load path never surfaces an error: an absent current
value yields the default, an absent, empty or unparseable persisted history
yields the empty history — but a parseable stored value that is not a
sequence of strings is returned unchanged rather than replaced by the empty
history (see the counterexample). -/
theorem C8_load_defaults :
    (∀ dflt, loadCurrent none dflt = dflt) ∧
    (∀ s dflt, loadCurrent (some s) dflt = s) ∧
    (loadHistory none = Json.arr []) ∧
    (loadHistory (some "") = Json.arr []) ∧
    (∀ s, jsonParse s = none → loadHistory (some s) = Json.arr []) := by
  refine ⟨fun _ => rfl, fun _ _ => rfl, rfl, rfl, ?_⟩
  intro s hs
  by_cases he : s = ""
  · simp [loadHistory, he]
  · simp [loadHistory, he, hs]

/-- C8 witness: a malformed history text (an unclosed bracket) degrades to
the empty history and an absent current value yields the default. -/
theorem C8_witness :
    loadHistory (some "[") = Json.arr [] ∧ loadCurrent none "fallback" = "fallback" :=
  ⟨C8_load_defaults.2.2.2.2 "[" rfl, C8_load_defaults.1 "fallback"⟩

/-! ### The submission flow of `src/App.tsx` (`handleSubmit`) -/

inductive SendingStatus where
  | IDLE
  | LOADING
  | SUCCESS
  | ERROR
deriving DecidableEq

inductive ViewMode where
  | visual
  | raw
  | debug
deriving DecidableEq

/-- The pieces of `App` state read and written by `handleSubmit`. -/
structure AppState where
  status : SendingStatus
  responseText : String
  errorMsg : Option String
  parsedDetections : Option Json
  viewMode : ViewMode

/-- JavaScript member access `json.items`: for an object, the last member
with the given name (as `JSON.parse` keeps the last duplicate member),
otherwise `undefined` (`none`). -/
def jGet : Json → String → Option Json
  | .obj members, k => (members.reverse.find? (fun e => e.1 == k)).map (fun e => e.2)
  | _, _ => none

/-- Model of `handleSubmit` from `src/App.tsx` as a state transition.  The
awaited model invocation is a parameter: `Except.error msg` models a rejected
call (with `err.message`, JavaScript `||` falling back on an empty message),
`Except.ok text` a resolved one.  Before the call, the handler clears the
response text, the parsed detections and the error, and sets the loading
status; afterwards it parses the response (array, or object with an `items`
array, else raw fallback). -/
def handleSubmit (fullPrompt : String) (outcome : Except String String)
    (s : AppState) : AppState :=
  if jsTrim fullPrompt = "" then { s with errorMsg := some "Prompt is empty." }
  else
    let s1 : AppState :=
      { s with
          status := .LOADING
          responseText := ""
          parsedDetections := none
          errorMsg := none
          viewMode := .visual }
    match outcome with
    | .error msg =>
      { s1 with
          errorMsg := some (if msg = "" then "Something went wrong." else msg)
          status := .ERROR }
    | .ok text =>
      let s2 := { s1 with responseText := text }
      let s3 :=
        match jsonParse text with
        | some (.arr l) => { s2 with parsedDetections := some (.arr l), viewMode := .visual }
        | some j =>
          match jGet j "items" with
          | some (.arr l) => { s2 with parsedDetections := some (.arr l), viewMode := .visual }
          | _ => { s2 with viewMode := .raw }
        | none => { s2 with viewMode := .raw }
      { s3 with status := .SUCCESS }

/-- A state holding the results of a prior successful run. -/
def priorState : AppState :=
  ⟨.SUCCESS, "prior results", none, some (Json.arr []), .visual⟩

/-- C9 counterexample: when the model invocation fails, the prior run's
displayed response text and parsed detections are NOT left untouched: they
were cleared at submission time, before the call. -/
theorem C9_counterexample :
    (handleSubmit "p" (Except.error "boom") priorState).responseText = "" ∧
    priorState.responseText = "prior results" ∧
    (handleSubmit "p" (Except.error "boom") priorState).parsedDetections = none ∧
    priorState.parsedDetections ≠ none := by
  refine ⟨rfl, rfl, rfl, ?_⟩
  simp [priorState]

/-- C9 (amended): when the model invocation for a run fails, the failure is
surfaced as a message and the run is marked failed, but the prior successful
run's results are not preserved: the displayed response text and parsed
detections were already cleared when the run started. -/
theorem C9_error_surfaced (s : AppState) (prompt msg : String)
    (hp : jsTrim prompt ≠ "") :
    (handleSubmit prompt (Except.error msg) s).status = .ERROR ∧
    (handleSubmit prompt (Except.error msg) s).errorMsg =
      some (if msg = "" then "Something went wrong." else msg) ∧
    (handleSubmit prompt (Except.error msg) s).responseText = "" ∧
    (handleSubmit prompt (Except.error msg) s).parsedDetections = none := by
  simp [handleSubmit, hp]

/-- C9 witness: a concrete failing run over a prior successful state. -/
theorem C9_witness :
    (handleSubmit "p" (Except.error "boom") priorState).status = .ERROR ∧
    (handleSubmit "p" (Except.error "boom") priorState).errorMsg = some "boom" := by
  have h := C9_error_surfaced priorState "p" "boom" (by decide)
  refine ⟨h.1, ?_⟩
  rw [h.2.1, if_neg (by decide : ¬ ("boom" : String) = "")]

end Inspector
